import Mathlib

/-!
Verification of the opencode-to-ccusage exporter against its
natural-language specification.

The TypeScript sources are shallowly embedded below:
* `src/converter.ts` — message filtering, deduplication and conversion;
* `src/utils.ts` — `dedupeKey`, `toISOTimestamp`;
* `src/session.ts` — session discovery (`listSessions`) and the retry
  wrapper (`exportSessionWithRetry`), with the filesystem and the external
  subprocess represented as explicit oracle data;
* `src/exporter.ts` — the sequential `runExport` orchestrator, with per-session
  filesystem answers and subprocess results as oracle data;
* the concurrent orchestrator (concurrency, incremental mode, abort policy)
  referenced by `src/commands/export.ts` and the spec is absent from the
  provided sources and is modelled from the spec where needed.

Machine integers are modelled as `Nat` (token counts and epoch-millisecond
timestamps are non-negative integers throughout the data handled by the tool).
-/

namespace OCE

/-! ## Generic stable sort

JavaScript `Array.prototype.sort` is a stable sort (ES2019).  We embed it as a
structural stable insertion sort so that concrete runs evaluate in the kernel.
-/

def insertBy (le : α → α → Bool) (x : α) : List α → List α
  | [] => [x]
  | y :: ys => if le x y then x :: y :: ys else y :: insertBy le x ys

def sortBy (le : α → α → Bool) : List α → List α
  | [] => []
  | x :: xs => insertBy le x (sortBy le xs)

theorem insertBy_perm (le : α → α → Bool) (x : α) (l : List α) :
    (insertBy le x l).Perm (x :: l) := by
  induction l with
  | nil => simp [insertBy]
  | cons y ys ih =>
    simp only [insertBy]
    by_cases h : le x y
    · simp [h]
    · simp only [h, if_neg, Bool.false_eq_true, ite_false]
      exact (ih.cons y).trans (List.Perm.swap x y ys)

theorem sortBy_perm (le : α → α → Bool) (l : List α) :
    (sortBy le l).Perm l := by
  induction l with
  | nil => simp [sortBy]
  | cons x xs ih =>
    exact (insertBy_perm le x (sortBy le xs)).trans (ih.cons x)

theorem mem_sortBy (le : α → α → Bool) (l : List α) (a : α) :
    a ∈ sortBy le l ↔ a ∈ l :=
  (sortBy_perm le l).mem_iff

theorem insertBy_pairwise (le : α → α → Bool)
    (htrans : ∀ a b c, le a b = true → le b c = true → le a c = true)
    (htot : ∀ a b, le a b = true ∨ le b a = true)
    (x : α) (l : List α) (hl : l.Pairwise (fun a b => le a b = true)) :
    (insertBy le x l).Pairwise (fun a b => le a b = true) := by
  induction l with
  | nil => simp [insertBy]
  | cons y ys ih =>
    rcases List.pairwise_cons.mp hl with ⟨hy, hys⟩
    simp only [insertBy]
    cases h : le x y with
    | true =>
      simp only [if_pos rfl]
      refine List.pairwise_cons.mpr ⟨?_, hl⟩
      intro z hz
      rcases List.mem_cons.mp hz with hz | hz
      · exact hz ▸ h
      · exact htrans x y z h (hy z hz)
    | false =>
      have hyx : le y x = true := (htot x y).resolve_left (by simp [h])
      simp only [Bool.false_eq_true, if_false]
      refine List.pairwise_cons.mpr ⟨?_, ih hys⟩
      intro z hz
      have : z ∈ x :: ys := (insertBy_perm le x ys).mem_iff.mp hz
      rcases List.mem_cons.mp this with hz' | hz'
      · exact hz' ▸ hyx
      · exact hy z hz'

theorem sortBy_pairwise (le : α → α → Bool)
    (htrans : ∀ a b c, le a b = true → le b c = true → le a c = true)
    (htot : ∀ a b, le a b = true ∨ le b a = true)
    (l : List α) :
    (sortBy le l).Pairwise (fun a b => le a b = true) := by
  induction l with
  | nil => simp [sortBy]
  | cons x xs ih => exact insertBy_pairwise le htrans htot x _ ih

/-! ## Data model (`src/types.ts`)

Zod schemas for the subprocess export become plain structures; `optional`
fields become `Option`.  Note `time.created` is a required field in
`MessageInfoSchema`, while `time.completed` is optional.
-/

inductive Role where
  | user
  | assistant
deriving DecidableEq, Repr

structure CacheInfo where
  read : Nat
  write : Nat
deriving DecidableEq, Repr

structure TokenInfo where
  input : Nat
  output : Nat
  reasoning : Nat
  cache : CacheInfo
deriving DecidableEq, Repr

structure MessageTime where
  created : Nat
  completed : Option Nat
deriving DecidableEq, Repr

structure PathInfo where
  cwd : String
  root : String
deriving DecidableEq, Repr

structure MessageInfo where
  id : String
  sessionID : String
  role : Role
  time : MessageTime
  modelID : Option String
  tokens : Option TokenInfo
  path : Option PathInfo
deriving DecidableEq, Repr

structure OpenCodeMessage where
  info : MessageInfo
deriving DecidableEq, Repr

structure SessionInfo where
  id : String
  projectID : String
  directory : String
  title : String
  created : Nat
  updated : Nat
deriving DecidableEq, Repr

structure OpenCodeExport where
  info : SessionInfo
  messages : List OpenCodeMessage
deriving DecidableEq, Repr

structure CcusageUsage where
  input_tokens : Nat
  output_tokens : Nat
  cache_read_input_tokens : Option Nat
  cache_creation_input_tokens : Option Nat
deriving DecidableEq, Repr

structure CcusageMessage where
  id : String
  model : String
  usage : CcusageUsage
deriving DecidableEq, Repr

structure CcusageLine where
  timestamp : String
  sessionId : String
  cwd : Option String
  requestId : String
  costUSD : Option Nat
  message : CcusageMessage
deriving DecidableEq, Repr

/-! ## `src/utils.ts` -/

-- create deduplication key for message
def dedupeKey (messageId : String) (timestamp : Nat) : String :=
  messageId ++ ":" ++ toString timestamp

def pad2 (n : Nat) : String :=
  if n < 10 then "0" ++ toString n else toString n

def pad3 (n : Nat) : String :=
  if n < 10 then "00" ++ toString n
  else if n < 100 then "0" ++ toString n
  else toString n

def pad4 (n : Nat) : String :=
  if n < 10 then "000" ++ toString n
  else if n < 100 then "00" ++ toString n
  else if n < 1000 then "0" ++ toString n
  else toString n

/-- Civil date from days since 1970-01-01 (Hinnant's algorithm, specialised to
non-negative days), used to embed `Date.prototype.toISOString`. -/
def civilFromDays (days : Nat) : Nat × Nat × Nat :=
  let z := days + 719468
  let era := z / 146097
  let doe := z % 146097
  let yoe := (doe - doe / 1460 + doe / 36524 - doe / 146096) / 365
  let y := yoe + era * 400
  let doy := doe - (365 * yoe + yoe / 4 - yoe / 100)
  let mp := (5 * doy + 2) / 153
  let d := doy - (153 * mp + 2) / 5 + 1
  let m := if mp < 10 then mp + 3 else mp - 9
  (if m ≤ 2 then y + 1 else y, m, d)

-- convert unix timestamp (milliseconds) to ISO 8601 string
def toISOTimestamp (unixMs : Nat) : String :=
  let ms := unixMs % 1000
  let totalSec := unixMs / 1000
  let sec := totalSec % 60
  let totalMin := totalSec / 60
  let min := totalMin % 60
  let totalHour := totalMin / 60
  let hour := totalHour % 24
  let days := totalHour / 24
  let ymd := civilFromDays days
  pad4 ymd.1 ++ "-" ++ pad2 ymd.2.1 ++ "-" ++ pad2 ymd.2.2 ++ "T" ++
    pad2 hour ++ ":" ++ pad2 min ++ ":" ++ pad2 sec ++ "." ++ pad3 ms ++ "Z"

/-! ## Converter (`src/converter.ts`) -/

structure ConvertOptions where
  includeReasoningInOutput : Bool
deriving DecidableEq, Repr

structure ConvertResult where
  lines : List CcusageLine
  skippedCount : Nat
deriving DecidableEq, Repr

-- check if message has valid token data (any billable activity)
def hasValidTokens (msg : OpenCodeMessage) : Bool :=
  match msg.info.tokens with
  | none => false
  | some tokens =>
    decide (0 < tokens.input) || decide (0 < tokens.output) ||
    decide (0 < tokens.reasoning) || decide (0 < tokens.cache.read) ||
    decide (0 < tokens.cache.write)

-- check if message has valid timestamp; `time.created` is required by the
-- schema, so the second disjunct of the source's check is always true
def hasValidTimestamp (msg : OpenCodeMessage) : Bool :=
  msg.info.time.completed.isSome || true

-- get best timestamp from message (prefer completed over created)
def getTimestamp (msg : OpenCodeMessage) : Nat :=
  msg.info.time.completed.getD msg.info.time.created

-- convert OpenCode message to ccusage line; the source dereferences
-- `msg.info.tokens!` (non-null assertion), callers guarantee `hasValidTokens`
def convertMessage (msg : OpenCodeMessage) (sessionId : String)
    (options : ConvertOptions) : CcusageLine :=
  let tokens := msg.info.tokens.getD ⟨0, 0, 0, ⟨0, 0⟩⟩
  let timestamp := getTimestamp msg
  let outputTokens :=
    if options.includeReasoningInOutput then tokens.output + tokens.reasoning
    else tokens.output
  { timestamp := toISOTimestamp timestamp
    sessionId := sessionId
    -- `if (msg.info.path?.cwd)`: JS truthiness also drops an empty string
    cwd := match msg.info.path with
      | some p => if p.cwd = "" then none else some p.cwd
      | none => none
    requestId := "opencode:" ++ sessionId ++ ":" ++ msg.info.id
    costUSD := none
    message :=
      { id := msg.info.id
        model := msg.info.modelID.getD "unknown"
        usage :=
          { input_tokens := tokens.input
            output_tokens := outputTokens
            cache_read_input_tokens :=
              if 0 < tokens.cache.read then some tokens.cache.read else none
            cache_creation_input_tokens :=
              if 0 < tokens.cache.write then some tokens.cache.write else none } } }

/-- The filtering loop of `convertSession`: `seen` is the set of dedup keys
(modelled as a list), the returned `Nat` is the skipped-message count. -/
def convertGo (sessionId : String) (options : ConvertOptions) :
    List OpenCodeMessage → List String → List CcusageLine × Nat
  | [], _ => ([], 0)
  | msg :: rest, seen =>
    -- only include assistant messages (billable model calls)
    if msg.info.role ≠ Role.assistant then
      convertGo sessionId options rest seen
    -- skip if no valid tokens
    else if ¬hasValidTokens msg then
      let r := convertGo sessionId options rest seen
      (r.1, r.2 + 1)
    -- skip if no valid timestamp
    else if ¬hasValidTimestamp msg then
      let r := convertGo sessionId options rest seen
      (r.1, r.2 + 1)
    else
      -- deduplicate by (messageId, timestamp)
      let key := dedupeKey msg.info.id (getTimestamp msg)
      if seen.contains key then
        let r := convertGo sessionId options rest seen
        (r.1, r.2 + 1)
      else
        let r := convertGo sessionId options rest (key :: seen)
        (convertMessage msg sessionId options :: r.1, r.2)

-- * convert OpenCode export to ccusage-compatible JSONL lines
def convertSession (session : OpenCodeExport) (options : ConvertOptions) :
    ConvertResult :=
  let r := convertGo session.info.id options session.messages []
  -- sort by timestamp ascending (deterministic ordering)
  { lines := sortBy (fun a b => decide (a.timestamp ≤ b.timestamp)) r.1
    skippedCount := r.2 }

/-- A message survives all three stateless filters of `convertSession`
(assistant role, billable tokens, usable timestamp). -/
def isConvertible (msg : OpenCodeMessage) : Bool :=
  decide (msg.info.role = Role.assistant) && hasValidTokens msg &&
    hasValidTimestamp msg

/-! ## Session discovery (`src/session.ts`, `listSessions`)

The filesystem is embedded as data: the `session` directory either exists or
not, and holds a list of project directories, each a list of metadata files.
`parsed = none` stands for any per-file failure the source catches silently:
a read error, corrupt JSON, or a `StoredSessionInfoSchema` mismatch. -/

structure StoredSessionInfo where
  id : String
  projectID : String
  directory : String
  -- zod `.optional().default("")` has already applied the default after parse
  title : String
  created : Nat
  updated : Nat
deriving DecidableEq, Repr

structure SessionListItem where
  id : String
  title : String
  updated : Nat
  created : Nat
  projectId : String
  directory : String
deriving DecidableEq, Repr

structure MetadataFile where
  name : String
  parsed : Option StoredSessionInfo
deriving DecidableEq, Repr

structure Storage where
  sessionsDirExists : Bool
  projects : List (List MetadataFile)
deriving DecidableEq, Repr

def toSessionListItem (sessionInfo : StoredSessionInfo) : SessionListItem :=
  { id := sessionInfo.id
    title := sessionInfo.title
    updated := sessionInfo.updated
    created := sessionInfo.created
    projectId := sessionInfo.projectID
    directory := sessionInfo.directory }

/-- The parallel enumeration inside `listSessions`: every project directory is
read, `.json` files are parsed, failures are dropped, results flattened. -/
def discoverSessions (storage : Storage) : List SessionListItem :=
  (storage.projects.map (fun projectFiles =>
    ((projectFiles.filter (fun f => f.name.endsWith ".json")).filterMap
      (fun f => f.parsed)).map toSessionListItem)).flatten

-- * list all sessions by reading directly from OpenCode storage
def listSessions (since : Option Nat) (storage : Storage) :
    List SessionListItem :=
  if ¬storage.sessionsDirExists then []
  else
    let sessions := discoverSessions storage
    -- filter by --since if provided
    let filteredSessions :=
      match since with
      | some sinceMs => sessions.filter (fun s => decide (sinceMs ≤ s.created))
      | none => sessions
    -- sort by created time ascending (oldest first)
    sortBy (fun a b => decide (a.created ≤ b.created)) filteredSessions

/-! ## Retry wrapper (`src/session.ts`, `exportSessionWithRetry`)

The fallible `exportSession` subprocess call is an oracle mapping the attempt
number to either an export or a thrown error message.  The wrapper's observable
effects — the returned value, the `setTimeout(500)` delays, and the `warn`
output — are returned explicitly. -/

/-- ECMAScript `.` matches any character except a line terminator
(LF, CR, U+2028, U+2029). -/
def isLineTerminator (c : Char) : Bool :=
  c == '\n' || c == '\r' || c == '\u2028' || c == '\u2029'

/-- The longest `(.+)`-shaped capture starting here: everything up to the
first line terminator. -/
def takeLine (s : String) : String :=
  ⟨s.data.takeWhile (fun c => !isLineTerminator c)⟩

/-- The regex `/stderr: (.+)/` tried occurrence by occurrence: `segs` are the
`splitOn`-segments after each `"stderr: "`.  At the current occurrence the
capture is the remainder of the line; if it is empty (the marker is followed
directly by a line terminator or the end of the string), `.+` fails there and
the engine resumes at the next occurrence — `"stderr: "` cannot overlap
itself, so the occurrences scanned this way are exactly the regex engine's
candidate positions that begin a match of the literal part. -/
def extractStderrGo : List String → Option String
  | [] => none
  | seg :: rest =>
    let line := takeLine (String.intercalate "stderr: " (seg :: rest))
    if line = "" then extractStderrGo rest else some line

/-- The capture of `lastError.message.match(/stderr: (.+)/)`. -/
def extractStderr (msg : String) : Option String :=
  match msg.splitOn "stderr: " with
  | [] => none
  | [_] => none
  | _ :: rest => extractStderrGo rest

/-- The error message built after all retry attempts are exhausted
(`errorMsg` in the source): truncates the error message at 200 characters and
the extracted stderr at 100. -/
def buildRetryErrorMsg (sessionId : String) (lastError : Option String)
    (lastStderr : Option String) : String :=
  let base := "Failed to export session " ++ sessionId
  let base :=
    match lastError with
    | some m =>
      if m = "" then base
      else base ++ ": " ++ (if 200 < m.length then m.take 200 ++ "..." else m)
    | none => base
  match lastStderr with
  | some s =>
    if s = "" then base
    else base ++ " (stderr: " ++
      (if 100 < s.length then s.take 100 ++ "..." else s) ++ ")"
  | none => base

structure RetryResult where
  result : Option OpenCodeExport
  delays : List Nat
  warnings : List String
deriving DecidableEq, Repr

/-- The retry loop over the list of remaining attempt numbers, carrying
`lastError` and `lastStderr`.  A 500ms delay is recorded after every failed
attempt that is not the last one. -/
def retryGo (env : Nat → Except String OpenCodeExport) (sessionId : String) :
    List Nat → Option String → Option String → RetryResult
  | [], lastError, lastStderr =>
    { result := none
      delays := []
      warnings := [buildRetryErrorMsg sessionId lastError lastStderr] }
  | attempt :: rest, _, lastStderr =>
    match env attempt with
    | .ok e => { result := some e, delays := [], warnings := [] }
    | .error msg =>
      let lastStderr :=
        match extractStderr msg with
        | some s => some s
        | none => lastStderr
      let r := retryGo env sessionId rest (some msg) lastStderr
      if rest.isEmpty then r
      else { r with delays := 500 :: r.delays }

-- export session w/ retry on failure
def exportSessionWithRetry (env : Nat → Except String OpenCodeExport)
    (sessionId : String) (maxRetries : Nat := 1) : RetryResult :=
  retryGo env sessionId (List.range (maxRetries + 1)) none none

/-- The `lastError` accumulator over a list of failed attempts: the latest
error message wins. -/
def lastErrAcc (env : Nat → Except String OpenCodeExport) (l : List Nat)
    (init : Option String) : Option String :=
  l.foldl
    (fun acc i =>
      match env i with
      | .error m => some m
      | .ok _ => acc)
    init

/-- The `lastStderr` accumulator over a list of attempts: the latest
extractable `stderr:` capture wins. -/
def lastStderrAcc (env : Nat → Except String OpenCodeExport) (l : List Nat)
    (init : Option String) : Option String :=
  l.foldl
    (fun acc i =>
      match env i with
      | .error m =>
        match extractStderr m with
        | some s => some s
        | none => acc
      | .ok _ => acc)
    init

/-- The stderr excerpt that survives to the final warning: the last extractable
`stderr:` capture among attempts `0..n`. -/
def lastStderrOf (env : Nat → Except String OpenCodeExport) (n : Nat) :
    Option String :=
  lastStderrAcc env (List.range (n + 1)) none

/-! ## Sequential orchestrator (`src/exporter.ts`, `runExport`)

The per-session filesystem answer (`fileExists(outFile)`) and the retried
subprocess result are oracle inputs carried with each discovered session. -/

inductive GroupBy where
  | flat
  | project
  | directory
deriving DecidableEq, Repr

structure ExportOptions where
  outDir : String
  overwrite : Bool
  since : Option Nat
  includeReasoningInOutput : Bool
  dryRun : Bool
  verbose : Bool
  groupBy : GroupBy
  openCodeDir : Option String
deriving DecidableEq, Repr

structure ExportStats where
  sessionsDiscovered : Nat
  sessionsExported : Nat
  sessionsSkipped : Nat
  messagesConverted : Nat
  messagesSkipped : Nat
  errors : List String
deriving DecidableEq, Repr

structure SessionTask where
  item : SessionListItem
  outFileExists : Bool
  exported : Option OpenCodeExport
deriving DecidableEq, Repr

/-- One iteration of the `for (const session of sessions)` loop, restricted to
its effect on the statistics (file writes and logging are I/O only). -/
def runExportStep (options : ExportOptions) (stats : ExportStats)
    (task : SessionTask) : ExportStats :=
  -- skip if exists & not overwriting
  if ¬options.overwrite ∧ task.outFileExists then
    { stats with sessionsSkipped := stats.sessionsSkipped + 1 }
  else
    match task.exported with
    | none =>
      { stats with
        errors := stats.errors ++
          ["Failed to export session " ++ task.item.id] }
    | some exported =>
      -- convert to ccusage format
      let result := convertSession exported
        { includeReasoningInOutput := options.includeReasoningInOutput }
      let stats :=
        { stats with
          messagesConverted := stats.messagesConverted + result.lines.length
          messagesSkipped := stats.messagesSkipped + result.skippedCount }
      -- skip empty sessions
      if result.lines.length = 0 then
        { stats with sessionsSkipped := stats.sessionsSkipped + 1 }
      else
        { stats with sessionsExported := stats.sessionsExported + 1 }

-- * run export process & return statistics
def runExport (openCodeAvailable : Bool) (options : ExportOptions)
    (tasks : List SessionTask) : Except String ExportStats :=
  if ¬openCodeAvailable then
    .error "OpenCode CLI not found or not working."
  else
    let stats : ExportStats :=
      { sessionsDiscovered := tasks.length
        sessionsExported := 0
        sessionsSkipped := 0
        messagesConverted := 0
        messagesSkipped := 0
        errors := [] }
    if tasks.length = 0 then .ok stats
    else .ok (tasks.foldl (runExportStep options) stats)

/-! ## Spec-modelled concurrent orchestrator

Modelled from the spec: the concurrent pipeline orchestrator — the `runExport`
variant with a concurrency limiter, incremental mode and the error-rate abort
policy (spec §4.4) — is missing from the provided sources; only its callers
(`src/commands/export.ts` passes `concurrency`, `incremental`,
`skipValidation`), its option declarations and its tests are present.  Tasks
are folded in scheduling order; a task whose start is gated by the abort flag
short-circuits to a skip, and a task that runs to completion updates the shared
counters and then re-evaluates the abort condition (at least 10 processed and
error rate above 25%, i.e. `4 * errors > processed`). -/

structure SpecExportOptions where
  overwrite : Bool
  incremental : Bool
deriving DecidableEq, Repr

structure SpecSessionTask where
  id : String
  updated : Nat
  outFileMtime : Option Nat
  exportOutcome : Option Nat
deriving DecidableEq, Repr

structure SpecRunState where
  processed : Nat
  exported : Nat
  skipped : Nat
  errors : Nat
  aborted : Bool
  invoked : List String
deriving DecidableEq, Repr

/-- Modelled from the spec: after a task completes, set the shared abort flag
once at least 10 sessions have been processed and the running error rate
exceeds 25%. -/
def abortCheck (st : SpecRunState) : SpecRunState :=
  if 10 ≤ st.processed ∧ st.processed < 4 * st.errors then
    { st with aborted := true }
  else st

/-- Modelled from the spec: the existing output file's modification time is at
or after the session's last-updated time. -/
def outFileFresh (task : SpecSessionTask) : Bool :=
  match task.outFileMtime with
  | some mtime => decide (task.updated ≤ mtime)
  | none => false

/-- Modelled from the spec: one session task of the concurrent orchestrator. -/
def specStep (options : SpecExportOptions) (st : SpecRunState)
    (task : SpecSessionTask) : SpecRunState :=
  if st.aborted then
    -- not-yet-started task short-circuits to a no-op skip
    { st with processed := st.processed + 1, skipped := st.skipped + 1 }
  -- skip condition (a): output file already exists and overwrite is disabled
  else if task.outFileMtime.isSome ∧ ¬options.overwrite then
    abortCheck { st with processed := st.processed + 1, skipped := st.skipped + 1 }
  -- skip condition (b): incremental mode and output at least as fresh
  else if options.incremental ∧ outFileFresh task then
    abortCheck { st with processed := st.processed + 1, skipped := st.skipped + 1 }
  else
    -- the exporter subprocess is invoked for this session
    let st := { st with invoked := st.invoked ++ [task.id] }
    match task.exportOutcome with
    | none =>
      abortCheck { st with processed := st.processed + 1, errors := st.errors + 1 }
    | some 0 =>
      abortCheck { st with processed := st.processed + 1, skipped := st.skipped + 1 }
    | some (_ + 1) =>
      abortCheck { st with processed := st.processed + 1, exported := st.exported + 1 }

def specInitState : SpecRunState :=
  { processed := 0, exported := 0, skipped := 0, errors := 0
    aborted := false, invoked := [] }

/-- Modelled from the spec: the whole concurrent run, aggregated in scheduling
order (the spec guarantees deterministic aggregation regardless of completion
order). -/
def specRun (options : SpecExportOptions) (tasks : List SpecSessionTask) :
    SpecRunState :=
  tasks.foldl (specStep options) specInitState

/-- The shared state once the first `i` scheduled tasks have resolved. -/
def specStateAfter (options : SpecExportOptions)
    (tasks : List SpecSessionTask) (i : Nat) : SpecRunState :=
  (tasks.take i).foldl (specStep options) specInitState

/-! ## Converter lemmas -/

theorem tokens_isSome_of_hasValidTokens {msg : OpenCodeMessage}
    (h : hasValidTokens msg = true) : ∃ t, msg.info.tokens = some t := by
  unfold hasValidTokens at h
  cases htok : msg.info.tokens with
  | none => rw [htok] at h; cases h
  | some t => exact ⟨t, rfl⟩

/-- Every line produced by the conversion loop is the conversion of some
message of the input that passed the three stateless filters. -/
theorem mem_convertGo (sid : String) (options : ConvertOptions) :
    ∀ (msgs : List OpenCodeMessage) (seen : List String) (l : CcusageLine),
    l ∈ (convertGo sid options msgs seen).1 →
    ∃ m ∈ msgs, isConvertible m = true ∧ l = convertMessage m sid options := by
  intro msgs
  induction msgs with
  | nil => intro seen l hl; simp [convertGo] at hl
  | cons m rest ih =>
    intro seen l hl
    by_cases hrole : m.info.role ≠ Role.assistant
    · rw [convertGo, if_pos hrole] at hl
      obtain ⟨m', hm', hc, he⟩ := ih seen l hl
      exact ⟨m', List.mem_cons_of_mem m hm', hc, he⟩
    · by_cases htok : ¬hasValidTokens m = true
      · rw [convertGo, if_neg hrole, if_pos htok] at hl
        obtain ⟨m', hm', hc, he⟩ := ih seen l hl
        exact ⟨m', List.mem_cons_of_mem m hm', hc, he⟩
      · by_cases hts : ¬hasValidTimestamp m = true
        · rw [convertGo, if_neg hrole, if_neg htok, if_pos hts] at hl
          obtain ⟨m', hm', hc, he⟩ := ih seen l hl
          exact ⟨m', List.mem_cons_of_mem m hm', hc, he⟩
        · by_cases hseen : seen.contains (dedupeKey m.info.id (getTimestamp m))
          · rw [convertGo, if_neg hrole, if_neg htok, if_neg hts] at hl
            simp only [hseen, if_true] at hl
            obtain ⟨m', hm', hc, he⟩ := ih seen l hl
            exact ⟨m', List.mem_cons_of_mem m hm', hc, he⟩
          · rw [convertGo, if_neg hrole, if_neg htok, if_neg hts] at hl
            simp only [hseen, Bool.false_eq_true, if_false] at hl
            rcases List.mem_cons.mp hl with he | hl'
            · refine ⟨m, List.mem_cons_self m rest, ?_, he⟩
              simp only [isConvertible, Bool.and_eq_true, decide_eq_true_eq]
              refine ⟨⟨Classical.byContradiction fun hr => hrole hr, ?_⟩, ?_⟩
              · exact Classical.byContradiction fun ht => htok (by simpa using ht)
              · exact Classical.byContradiction fun ht => hts (by simpa using ht)
            · obtain ⟨m', hm', hc, he⟩ :=
                ih (dedupeKey m.info.id (getTimestamp m) :: seen) l hl'
              exact ⟨m', List.mem_cons_of_mem m hm', hc, he⟩

/-- C6: every OutputLine produced by convertSession carries
`cache_read_input_tokens` exactly when the source message's `cache.read` is
strictly positive (and then equals it), `cache_creation_input_tokens` exactly
when `cache.write` is strictly positive (and then equals it), and its cost
field is never populated. -/
theorem convertSession_cache_fields_iff_positive
    (session : OpenCodeExport) (options : ConvertOptions) (l : CcusageLine)
    (hl : l ∈ (convertSession session options).lines) :
    ∃ m ∈ session.messages, ∃ t, m.info.tokens = some t ∧
      l.message.usage.cache_read_input_tokens =
        (if 0 < t.cache.read then some t.cache.read else none) ∧
      l.message.usage.cache_creation_input_tokens =
        (if 0 < t.cache.write then some t.cache.write else none) ∧
      l.costUSD = none := by
  have hl' : l ∈ (convertGo session.info.id options session.messages []).1 := by
    have := (mem_sortBy (fun a b : CcusageLine => decide (a.timestamp ≤ b.timestamp))
      (convertGo session.info.id options session.messages []).1 l).mp
    exact this (by simpa [convertSession] using hl)
  obtain ⟨m, hm, hc, he⟩ := mem_convertGo session.info.id options _ _ _ hl'
  have htokᵥ : hasValidTokens m = true := by
    simp only [isConvertible, Bool.and_eq_true] at hc
    exact hc.1.2
  obtain ⟨t, ht⟩ := tokens_isSome_of_hasValidTokens htokᵥ
  refine ⟨m, hm, t, ht, ?_, ?_, ?_⟩ <;> subst he <;>
    simp [convertMessage, ht]

/-- A concrete assistant message with cache-read activity, and the
single-message session around it, used by closed witnesses. -/
def exMsgCache : OpenCodeMessage :=
  ⟨⟨"m1", "s1", Role.assistant, ⟨5, none⟩, some "model-x",
    some ⟨1, 2, 0, ⟨7, 0⟩⟩, none⟩⟩

def exSessionCache : OpenCodeExport :=
  ⟨⟨"s1", "p1", "/d", "t", 0, 0⟩, [exMsgCache]⟩

/-- Closed witness for `convertSession_cache_fields_iff_positive`. -/
theorem convertSession_cache_fields_iff_positive_witness :
    convertMessage exMsgCache "s1" ⟨true⟩ ∈
      (convertSession exSessionCache ⟨true⟩).lines ∧
    ∃ m ∈ exSessionCache.messages, ∃ t, m.info.tokens = some t ∧
      (convertMessage exMsgCache "s1" ⟨true⟩).message.usage.cache_read_input_tokens =
        (if 0 < t.cache.read then some t.cache.read else none) ∧
      (convertMessage exMsgCache "s1" ⟨true⟩).message.usage.cache_creation_input_tokens =
        (if 0 < t.cache.write then some t.cache.write else none) ∧
      (convertMessage exMsgCache "s1" ⟨true⟩).costUSD = none :=
  ⟨by decide,
    convertSession_cache_fields_iff_positive exSessionCache ⟨true⟩
      (convertMessage exMsgCache "s1" ⟨true⟩) (by decide)⟩

/-- C5: the converted line's `output_tokens` equals the message's output
tokens plus its reasoning tokens when `includeReasoningInOutput` is true, and
the output tokens alone when it is false. -/
theorem convertMessage_output_tokens_reasoning
    (msg : OpenCodeMessage) (sessionId : String) (options : ConvertOptions)
    (t : TokenInfo) (ht : msg.info.tokens = some t) :
    (convertMessage msg sessionId options).message.usage.output_tokens =
      (if options.includeReasoningInOutput then t.output + t.reasoning
       else t.output) := by
  simp [convertMessage, ht]

/-- Closed witness for `convertMessage_output_tokens_reasoning`. -/
theorem convertMessage_output_tokens_reasoning_witness :
    (let msg : OpenCodeMessage :=
      ⟨⟨"m1", "s1", Role.assistant, ⟨5, none⟩, none,
        some ⟨100, 200, 50, ⟨0, 0⟩⟩, none⟩⟩
    msg.info.tokens = some ⟨100, 200, 50, ⟨0, 0⟩⟩ ∧
      (convertMessage msg "s1" ⟨true⟩).message.usage.output_tokens =
        (if (⟨true⟩ : ConvertOptions).includeReasoningInOutput then 200 + 50
         else 200)) :=
  ⟨rfl, convertMessage_output_tokens_reasoning _ "s1" ⟨true⟩ _ rfl⟩

/-! ### Step equations for the conversion loop -/

theorem isConvertible_parts {m : OpenCodeMessage}
    (h : isConvertible m = true) :
    m.info.role = Role.assistant ∧ hasValidTokens m = true ∧
      hasValidTimestamp m = true := by
  simpa [isConvertible, and_assoc] using h

theorem convertGo_cons_notAssistant (sid : String) (o : ConvertOptions)
    (m : OpenCodeMessage) (rest : List OpenCodeMessage) (seen : List String)
    (h : m.info.role ≠ Role.assistant) :
    convertGo sid o (m :: rest) seen = convertGo sid o rest seen := by
  simp [convertGo, h]

theorem convertGo_cons_badTokens (sid : String) (o : ConvertOptions)
    (m : OpenCodeMessage) (rest : List OpenCodeMessage) (seen : List String)
    (h1 : m.info.role = Role.assistant) (h2 : hasValidTokens m = false) :
    convertGo sid o (m :: rest) seen =
      ((convertGo sid o rest seen).1, (convertGo sid o rest seen).2 + 1) := by
  simp [convertGo, h1, h2]

theorem convertGo_cons_badTimestamp (sid : String) (o : ConvertOptions)
    (m : OpenCodeMessage) (rest : List OpenCodeMessage) (seen : List String)
    (h1 : m.info.role = Role.assistant) (h2 : hasValidTokens m = true)
    (h3 : hasValidTimestamp m = false) :
    convertGo sid o (m :: rest) seen =
      ((convertGo sid o rest seen).1, (convertGo sid o rest seen).2 + 1) := by
  simp [convertGo, h1, h2, h3]

theorem convertGo_cons_dup (sid : String) (o : ConvertOptions)
    (m : OpenCodeMessage) (rest : List OpenCodeMessage) (seen : List String)
    (h1 : isConvertible m = true)
    (h4 : dedupeKey m.info.id (getTimestamp m) ∈ seen) :
    convertGo sid o (m :: rest) seen =
      ((convertGo sid o rest seen).1, (convertGo sid o rest seen).2 + 1) := by
  obtain ⟨hrole, htok, hts⟩ := isConvertible_parts h1
  simp [convertGo, hrole, htok, hts, h4]

theorem convertGo_cons_new (sid : String) (o : ConvertOptions)
    (m : OpenCodeMessage) (rest : List OpenCodeMessage) (seen : List String)
    (h1 : isConvertible m = true)
    (h4 : dedupeKey m.info.id (getTimestamp m) ∉ seen) :
    convertGo sid o (m :: rest) seen =
      (convertMessage m sid o ::
        (convertGo sid o rest (dedupeKey m.info.id (getTimestamp m) :: seen)).1,
       (convertGo sid o rest (dedupeKey m.info.id (getTimestamp m) :: seen)).2) := by
  obtain ⟨hrole, htok, hts⟩ := isConvertible_parts h1
  simp [convertGo, hrole, htok, hts, h4]

/-- `time.created` is a required schema field, so the source's timestamp
check can never fail. -/
theorem hasValidTimestamp_true (m : OpenCodeMessage) :
    hasValidTimestamp m = true := by
  simp [hasValidTimestamp]

/-! ### Claim C3: what `skippedCount` counts -/

/-- Modelled from the spec's words, for comparison with the source only
(claim C3): a skip count that tallies every message rejected by any filter
step, including messages whose role is not assistant. -/
def specClaimedSkipAux : List OpenCodeMessage → List String → Nat
  | [], _ => 0
  | m :: rest, prior =>
    if isConvertible m = false then 1 + specClaimedSkipAux rest prior
    else if dedupeKey m.info.id (getTimestamp m) ∈ prior then
      1 + specClaimedSkipAux rest (dedupeKey m.info.id (getTimestamp m) :: prior)
    else
      specClaimedSkipAux rest (dedupeKey m.info.id (getTimestamp m) :: prior)

def specClaimedSkipCount (session : OpenCodeExport) : Nat :=
  specClaimedSkipAux session.messages []

/-- A session holding a single user message that carries billable tokens:
it is rejected by the role filter and by no other. -/
def cexSessionUser : OpenCodeExport :=
  ⟨⟨"s1", "p1", "/d", "t", 0, 0⟩,
   [⟨⟨"u1", "s1", Role.user, ⟨5, none⟩, none, some ⟨3, 0, 0, ⟨0, 0⟩⟩, none⟩⟩]⟩

/-- C3 counterexample: on a session whose only message is a user message, the
code returns `skippedCount = 0`, while the claim (every message rejected by
any filter step is tallied, the role filter included) demands 1. -/
theorem convertSession_skippedCount_claim_false :
    (convertSession cexSessionUser ⟨true⟩).skippedCount = 0 ∧
    specClaimedSkipCount cexSessionUser = 1 ∧
    (convertSession cexSessionUser ⟨true⟩).skippedCount ≠
      specClaimedSkipCount cexSessionUser := by
  refine ⟨by decide, by decide, by decide⟩

/-- Assistant messages rejected by the token-activity or timestamp filters. -/
def countBadAssistant (msgs : List OpenCodeMessage) : Nat :=
  (msgs.filter (fun m => decide (m.info.role = Role.assistant) &&
    (!hasValidTokens m || !hasValidTimestamp m))).length

/-- Messages that pass the stateless filters but share a dedup key with an
earlier such message (`prior` holds the keys of earlier eligible messages). -/
def dupCountAux : List OpenCodeMessage → List String → Nat
  | [], _ => 0
  | m :: rest, prior =>
    if isConvertible m = true then
      (if dedupeKey m.info.id (getTimestamp m) ∈ prior then 1 else 0) +
        dupCountAux rest (dedupeKey m.info.id (getTimestamp m) :: prior)
    else dupCountAux rest prior

theorem dupCountAux_congr :
    ∀ (msgs : List OpenCodeMessage) (p1 p2 : List String),
    (∀ k, k ∈ p1 ↔ k ∈ p2) → dupCountAux msgs p1 = dupCountAux msgs p2 := by
  intro msgs
  induction msgs with
  | nil => intro p1 p2 _; rfl
  | cons m rest ih =>
    intro p1 p2 h
    by_cases hc : isConvertible m = true
    · simp only [dupCountAux, if_pos hc]
      have h1 :
          (if dedupeKey m.info.id (getTimestamp m) ∈ p1 then 1 else 0) =
          (if dedupeKey m.info.id (getTimestamp m) ∈ p2 then 1 else 0) := by
        by_cases hk : dedupeKey m.info.id (getTimestamp m) ∈ p1
        · rw [if_pos hk, if_pos ((h _).mp hk)]
        · rw [if_neg hk, if_neg (fun hk2 => hk ((h _).mpr hk2))]
      rw [h1]
      have hrec := ih (dedupeKey m.info.id (getTimestamp m) :: p1)
        (dedupeKey m.info.id (getTimestamp m) :: p2)
        (fun k => by simp [List.mem_cons, h k])
      rw [hrec]
    · simp only [dupCountAux, if_neg hc]
      exact ih _ _ h

theorem convertGo_skipped_eq (sid : String) (o : ConvertOptions) :
    ∀ (msgs : List OpenCodeMessage) (seen : List String),
    (convertGo sid o msgs seen).2 =
      countBadAssistant msgs + dupCountAux msgs seen := by
  intro msgs
  induction msgs with
  | nil => intro seen; simp [convertGo, countBadAssistant, dupCountAux]
  | cons m rest ih =>
    intro seen
    by_cases hrole : m.info.role = Role.assistant
    · by_cases htok : hasValidTokens m = true
      · have hconv : isConvertible m = true := by
          simp [isConvertible, hrole, htok, hasValidTimestamp_true]
        have hcb : countBadAssistant (m :: rest) = countBadAssistant rest := by
          simp [countBadAssistant, List.filter_cons, htok, hasValidTimestamp_true]
        by_cases hk : dedupeKey m.info.id (getTimestamp m) ∈ seen
        · rw [convertGo_cons_dup sid o m rest seen hconv hk]
          have hdup : dupCountAux (m :: rest) seen =
              1 + dupCountAux rest (dedupeKey m.info.id (getTimestamp m) :: seen) := by
            simp [dupCountAux, hconv, hk]
          have hpr : dupCountAux rest seen =
              dupCountAux rest (dedupeKey m.info.id (getTimestamp m) :: seen) :=
            dupCountAux_congr rest _ _ (fun k => by
              constructor
              · exact fun hks => List.mem_cons_of_mem _ hks
              · intro hks
                rcases List.mem_cons.mp hks with rfl | hks'
                · exact hk
                · exact hks')
          rw [hcb, hdup, ih seen, hpr]
          omega
        · rw [convertGo_cons_new sid o m rest seen hconv hk]
          have hdup : dupCountAux (m :: rest) seen =
              dupCountAux rest (dedupeKey m.info.id (getTimestamp m) :: seen) := by
            simp [dupCountAux, hconv, hk]
          rw [hcb, hdup, ih]
      · have htok' : hasValidTokens m = false := by
          cases h : hasValidTokens m
          · rfl
          · exact absurd h htok
        rw [convertGo_cons_badTokens sid o m rest seen hrole htok']
        have hcb : countBadAssistant (m :: rest) = countBadAssistant rest + 1 := by
          simp [countBadAssistant, List.filter_cons, hrole, htok']
        have hic : isConvertible m = false := by
          simp [isConvertible, htok']
        have hdup : dupCountAux (m :: rest) seen = dupCountAux rest seen := by
          simp [dupCountAux, hic]
        rw [hcb, hdup, ih seen]
        omega
    · rw [convertGo_cons_notAssistant sid o m rest seen hrole]
      have hcb : countBadAssistant (m :: rest) = countBadAssistant rest := by
        simp [countBadAssistant, List.filter_cons, hrole]
      have hic : isConvertible m = false := by
        simp [isConvertible, hrole]
      have hdup : dupCountAux (m :: rest) seen = dupCountAux rest seen := by
        simp [dupCountAux, hic]
      rw [hcb, hdup, ih seen]

/-- C3 amended: `skippedCount` equals the number of assistant messages
rejected by the token-activity or timestamp filters plus the number of
dropped duplicates; messages whose role is not assistant are excluded
silently and are NOT counted. -/
theorem convertSession_skippedCount_assistant_only
    (session : OpenCodeExport) (options : ConvertOptions) :
    (convertSession session options).skippedCount =
      countBadAssistant session.messages + dupCountAux session.messages [] := by
  simpa [convertSession] using
    convertGo_skipped_eq session.info.id options session.messages []

/-! ### Claim C4: deduplication by key -/

theorem convertGo_dup_drop (sid : String) (o : ConvertOptions) :
    ∀ (pre : List OpenCodeMessage) (m : OpenCodeMessage)
      (post : List OpenCodeMessage) (seen : List String),
    isConvertible m = true →
    (dedupeKey m.info.id (getTimestamp m) ∈ seen ∨
      ∃ m1 ∈ pre, isConvertible m1 = true ∧
        dedupeKey m1.info.id (getTimestamp m1) =
          dedupeKey m.info.id (getTimestamp m)) →
    convertGo sid o (pre ++ m :: post) seen =
      ((convertGo sid o (pre ++ post) seen).1,
       (convertGo sid o (pre ++ post) seen).2 + 1) := by
  intro pre
  induction pre with
  | nil =>
    intro m post seen hm hkey
    have hk : dedupeKey m.info.id (getTimestamp m) ∈ seen := by
      rcases hkey with h | ⟨m1, hm1, _⟩
      · exact h
      · simp at hm1
    simpa using convertGo_cons_dup sid o m post seen hm hk
  | cons p pre ih =>
    intro m post seen hm hkey
    by_cases hpc : isConvertible p = true
    · by_cases hpk : dedupeKey p.info.id (getTimestamp p) ∈ seen
      · rw [List.cons_append, List.cons_append,
          convertGo_cons_dup sid o p _ seen hpc hpk,
          convertGo_cons_dup sid o p _ seen hpc hpk]
        have hkey' : dedupeKey m.info.id (getTimestamp m) ∈ seen ∨
            ∃ m1 ∈ pre, isConvertible m1 = true ∧
              dedupeKey m1.info.id (getTimestamp m1) =
                dedupeKey m.info.id (getTimestamp m) := by
          rcases hkey with h | ⟨m1, hm1, hc1, he1⟩
          · exact Or.inl h
          · rcases List.mem_cons.mp hm1 with rfl | hm1'
            · exact Or.inl (he1 ▸ hpk)
            · exact Or.inr ⟨m1, hm1', hc1, he1⟩
        rw [ih m post seen hm hkey']
      · rw [List.cons_append, List.cons_append,
          convertGo_cons_new sid o p _ seen hpc hpk,
          convertGo_cons_new sid o p _ seen hpc hpk]
        have hkey' : dedupeKey m.info.id (getTimestamp m) ∈
              (dedupeKey p.info.id (getTimestamp p) :: seen) ∨
            ∃ m1 ∈ pre, isConvertible m1 = true ∧
              dedupeKey m1.info.id (getTimestamp m1) =
                dedupeKey m.info.id (getTimestamp m) := by
          rcases hkey with h | ⟨m1, hm1, hc1, he1⟩
          · exact Or.inl (List.mem_cons_of_mem _ h)
          · rcases List.mem_cons.mp hm1 with rfl | hm1'
            · exact Or.inl (he1 ▸ List.mem_cons_self _ _)
            · exact Or.inr ⟨m1, hm1', hc1, he1⟩
        rw [ih m post _ hm hkey']
    · have hkey' : dedupeKey m.info.id (getTimestamp m) ∈ seen ∨
          ∃ m1 ∈ pre, isConvertible m1 = true ∧
            dedupeKey m1.info.id (getTimestamp m1) =
              dedupeKey m.info.id (getTimestamp m) := by
        rcases hkey with h | ⟨m1, hm1, hc1, he1⟩
        · exact Or.inl h
        · rcases List.mem_cons.mp hm1 with rfl | hm1'
          · exact absurd hc1 hpc
          · exact Or.inr ⟨m1, hm1', hc1, he1⟩
      by_cases hprole : p.info.role = Role.assistant
      · have hptok : hasValidTokens p = false := by
          cases hpt : hasValidTokens p
          · rfl
          · exact absurd
              (by simp [isConvertible, hprole, hpt, hasValidTimestamp_true])
              hpc
        rw [List.cons_append, List.cons_append,
          convertGo_cons_badTokens sid o p _ seen hprole hptok,
          convertGo_cons_badTokens sid o p _ seen hprole hptok,
          ih m post seen hm hkey']
      · rw [List.cons_append, List.cons_append,
          convertGo_cons_notAssistant sid o p _ seen hprole,
          convertGo_cons_notAssistant sid o p _ seen hprole,
          ih m post seen hm hkey']

/-- C4: a later eligible message whose (messageId, chosen timestamp) pair
coincides with that of an earlier eligible message contributes nothing to the
output lines — the conversion result is literally that of the session without
it — and bumps `skippedCount` by one; equality is by the dedup key, not by
object identity. -/
theorem convertSession_dedupe_drops_later
    (info : SessionInfo) (options : ConvertOptions)
    (pre : List OpenCodeMessage) (m : OpenCodeMessage)
    (post : List OpenCodeMessage)
    (hm : isConvertible m = true)
    (hdup : ∃ m1 ∈ pre, isConvertible m1 = true ∧
      dedupeKey m1.info.id (getTimestamp m1) =
        dedupeKey m.info.id (getTimestamp m)) :
    (convertSession ⟨info, pre ++ m :: post⟩ options).lines =
      (convertSession ⟨info, pre ++ post⟩ options).lines ∧
    (convertSession ⟨info, pre ++ m :: post⟩ options).skippedCount =
      (convertSession ⟨info, pre ++ post⟩ options).skippedCount + 1 := by
  have h := convertGo_dup_drop info.id options pre m post [] hm (Or.inr hdup)
  exact ⟨by simp [convertSession, h], by simp [convertSession, h]⟩

/-- Two distinct message objects sharing the dedup key `"m1:5"`: same id and
chosen timestamp, different token payloads and models. -/
def exDupA : OpenCodeMessage :=
  ⟨⟨"m1", "s1", Role.assistant, ⟨5, none⟩, some "model-x",
    some ⟨1, 2, 3, ⟨0, 0⟩⟩, none⟩⟩

def exDupB : OpenCodeMessage :=
  ⟨⟨"m1", "s1", Role.assistant, ⟨3, some 5⟩, some "model-y",
    some ⟨9, 8, 7, ⟨0, 0⟩⟩, none⟩⟩

def exDupInfo : SessionInfo := ⟨"s1", "p1", "/d", "t", 0, 0⟩

/-- Closed witness for `convertSession_dedupe_drops_later`. -/
theorem convertSession_dedupe_drops_later_witness :
    (isConvertible exDupB = true ∧
      ∃ m1 ∈ [exDupA], isConvertible m1 = true ∧
        dedupeKey m1.info.id (getTimestamp m1) =
          dedupeKey exDupB.info.id (getTimestamp exDupB)) ∧
    ((convertSession ⟨exDupInfo, [exDupA] ++ exDupB :: []⟩ ⟨true⟩).lines =
      (convertSession ⟨exDupInfo, [exDupA] ++ []⟩ ⟨true⟩).lines ∧
    (convertSession ⟨exDupInfo, [exDupA] ++ exDupB :: []⟩ ⟨true⟩).skippedCount =
      (convertSession ⟨exDupInfo, [exDupA] ++ []⟩ ⟨true⟩).skippedCount + 1) :=
  ⟨⟨by decide, by decide⟩,
    convertSession_dedupe_drops_later exDupInfo ⟨true⟩ [exDupA] exDupB []
      (by decide) (by decide)⟩

/-! ## Discovery theorems -/

/-- C7: with a since cutoff set, `listSessions` returns exactly the parseable
discovered sessions whose creation instant is at or after the cutoff
(boundary inclusive), sorted by creation instant ascending, for every
filesystem content (hence for every enumeration order). -/
theorem listSessions_since_boundary_sorted (x : Nat) (storage : Storage)
    (hroot : storage.sessionsDirExists = true) :
    (listSessions (some x) storage).Perm
      ((discoverSessions storage).filter (fun s => decide (x ≤ s.created))) ∧
    (listSessions (some x) storage).Pairwise
      (fun a b => a.created ≤ b.created) := by
  have hls : listSessions (some x) storage
      = sortBy (fun a b => decide (a.created ≤ b.created))
          ((discoverSessions storage).filter (fun s => decide (x ≤ s.created))) := by
    simp [listSessions, hroot]
  constructor
  · rw [hls]; exact sortBy_perm _ _
  · rw [hls]
    have hp := sortBy_pairwise (fun a b : SessionListItem => decide (a.created ≤ b.created))
      (fun a b c hab hbc => by
        simp only [decide_eq_true_eq] at *; omega)
      (fun a b => by
        simp only [decide_eq_true_eq]; omega)
      ((discoverSessions storage).filter (fun s => decide (x ≤ s.created)))
    exact hp.imp (fun h => by simpa using h)

/-- Closed witness for `listSessions_since_boundary_sorted`: a session created
exactly at the cutoff is included, and output is sorted oldest first. -/
theorem listSessions_since_boundary_sorted_witness :
    (let f1 : MetadataFile := ⟨"a.json", some ⟨"sA", "p", "/d", "", 7, 9⟩⟩
    let f2 : MetadataFile := ⟨"b.json", some ⟨"sB", "p", "/d", "", 5, 9⟩⟩
    let storage : Storage := ⟨true, [[f1, f2]]⟩
    storage.sessionsDirExists = true ∧
      ((listSessions (some 5) storage).Perm
        ((discoverSessions storage).filter (fun s => decide (5 ≤ s.created))) ∧
      (listSessions (some 5) storage).Pairwise
        (fun a b => a.created ≤ b.created))) :=
  ⟨rfl, listSessions_since_boundary_sorted 5 _ rfl⟩

/-- C8: `listSessions` yields the empty sequence (not an error) when the
storage root is missing, and a metadata file that fails to parse is silently
omitted while valid sibling files of the same project directory are still
returned (the result is literally the same as if the bad file were absent). -/
theorem listSessions_missing_root_and_bad_files :
    (∀ (since : Option Nat) (projects : List (List MetadataFile)),
      listSessions since ⟨false, projects⟩ = []) ∧
    (∀ (since : Option Nat) (pre : List (List MetadataFile))
      (p1 p2 : List MetadataFile) (rest : List (List MetadataFile))
      (name : String),
      listSessions since ⟨true, pre ++ (p1 ++ ⟨name, none⟩ :: p2) :: rest⟩ =
      listSessions since ⟨true, pre ++ (p1 ++ p2) :: rest⟩) := by
  constructor
  · intro since projects
    simp [listSessions]
  · intro since pre p1 p2 rest name
    have hinner :
        (((p1 ++ (⟨name, none⟩ : MetadataFile) :: p2).filter
            (fun f => f.name.endsWith ".json")).filterMap
          (fun f => f.parsed))
        = (((p1 ++ p2).filter (fun f => f.name.endsWith ".json")).filterMap
          (fun f => f.parsed)) := by
      simp only [List.filter_append, List.filter_cons]
      cases h : String.endsWith name ".json" <;>
        simp [List.filterMap_append]
    have hdisc :
        discoverSessions ⟨true, pre ++ (p1 ++ ⟨name, none⟩ :: p2) :: rest⟩
        = discoverSessions ⟨true, pre ++ (p1 ++ p2) :: rest⟩ := by
      simp only [discoverSessions, List.map_append, List.map_cons]
      rw [hinner]
    simp only [listSessions]
    rw [hdisc]

/-! ## Sequential orchestrator theorems -/

/-- Each loop iteration of `runExport` moves exactly one session into exactly
one of the exported / skipped / error buckets and leaves the discovered count
unchanged. -/
theorem runExportStep_buckets (options : ExportOptions) (stats : ExportStats)
    (task : SessionTask) :
    (runExportStep options stats task).sessionsExported +
      (runExportStep options stats task).sessionsSkipped +
      (runExportStep options stats task).errors.length =
    stats.sessionsExported + stats.sessionsSkipped + stats.errors.length + 1 ∧
    (runExportStep options stats task).sessionsDiscovered =
      stats.sessionsDiscovered := by
  simp only [runExportStep]
  split
  · exact ⟨by simp; omega, rfl⟩
  · split
    · exact ⟨by simp; omega, rfl⟩
    · split
      · exact ⟨by simp; omega, rfl⟩
      · exact ⟨by simp; omega, rfl⟩

theorem runExport_foldl_partition (options : ExportOptions) :
    ∀ (tasks : List SessionTask) (stats : ExportStats),
    (tasks.foldl (runExportStep options) stats).sessionsExported +
      (tasks.foldl (runExportStep options) stats).sessionsSkipped +
      (tasks.foldl (runExportStep options) stats).errors.length =
    stats.sessionsExported + stats.sessionsSkipped + stats.errors.length +
      tasks.length ∧
    (tasks.foldl (runExportStep options) stats).sessionsDiscovered =
      stats.sessionsDiscovered := by
  intro tasks
  induction tasks with
  | nil => intro stats; simp
  | cons t rest ih =>
    intro stats
    have hstep := runExportStep_buckets options stats t
    have hrest := ih (runExportStep options stats t)
    simp only [List.foldl_cons, List.length_cons]
    exact ⟨by omega, by rw [hrest.2, hstep.2]⟩

/-- C10: whenever `runExport` returns normally, the returned statistics
partition the discovered sessions:
`sessionsExported + sessionsSkipped + errors.length = sessionsDiscovered`. -/
theorem runExport_stats_partition (openCodeAvailable : Bool)
    (options : ExportOptions) (tasks : List SessionTask) (stats : ExportStats)
    (h : runExport openCodeAvailable options tasks = .ok stats) :
    stats.sessionsExported + stats.sessionsSkipped + stats.errors.length =
      stats.sessionsDiscovered := by
  unfold runExport at h
  by_cases havail : ¬openCodeAvailable
  · rw [if_pos havail] at h; cases h
  · rw [if_neg havail] at h
    by_cases hlen : tasks.length = 0
    · rw [if_pos hlen] at h
      cases h
      simp [hlen]
    · rw [if_neg hlen] at h
      cases h
      have hinv := runExport_foldl_partition options tasks
        { sessionsDiscovered := tasks.length, sessionsExported := 0
          sessionsSkipped := 0, messagesConverted := 0, messagesSkipped := 0
          errors := [] }
      rw [hinv.1, hinv.2]
      simp

/-- Concrete inputs for the `runExport_stats_partition` witness: one discovered
session whose output file already exists while overwrite is disabled. -/
def exRunOptions : ExportOptions :=
  ⟨"/out", false, none, true, false, false, GroupBy.flat, none⟩

def exRunTask : SessionTask := ⟨⟨"sA", "", 0, 0, "p", "/d"⟩, true, none⟩

/-- Closed witness for `runExport_stats_partition`. -/
theorem runExport_stats_partition_witness :
    runExport true exRunOptions [exRunTask] = .ok ⟨1, 0, 1, 0, 0, []⟩ ∧
      (ExportStats.mk 1 0 1 0 0 []).sessionsExported +
        (ExportStats.mk 1 0 1 0 0 []).sessionsSkipped +
        (ExportStats.mk 1 0 1 0 0 []).errors.length =
        (ExportStats.mk 1 0 1 0 0 []).sessionsDiscovered :=
  ⟨rfl, runExport_stats_partition true exRunOptions [exRunTask] _ rfl⟩

/-! ## Retry wrapper theorems -/

theorem retryGo_allFail (env : Nat → Except String OpenCodeExport)
    (sid : String) :
    ∀ (l : List Nat) (le ls : Option String),
    (∀ i ∈ l, ∃ m, env i = .error m) →
    retryGo env sid l le ls =
      { result := none
        delays := List.replicate (l.length - 1) 500
        warnings := [buildRetryErrorMsg sid (lastErrAcc env l le)
          (lastStderrAcc env l ls)] } := by
  intro l
  induction l with
  | nil =>
    intro le ls _
    simp [retryGo, lastErrAcc, lastStderrAcc]
  | cons i rest ih =>
    intro le ls h
    obtain ⟨m, hm⟩ := h i (List.mem_cons_self i rest)
    have hrest : ∀ j ∈ rest, ∃ m2, env j = .error m2 :=
      fun j hj => h j (List.mem_cons_of_mem i hj)
    have hle : lastErrAcc env (i :: rest) le = lastErrAcc env rest (some m) := by
      simp [lastErrAcc, hm]
    have hls : lastStderrAcc env (i :: rest) ls =
        lastStderrAcc env rest
          (match extractStderr m with
            | some s => some s
            | none => ls) := by
      simp [lastStderrAcc, hm]
    rw [retryGo]
    rw [hm]
    cases rest with
    | nil =>
      simp only [List.isEmpty_nil, if_true]
      rw [ih _ _ hrest]
      rw [hle, hls]
      simp
    | cons j rest2 =>
      simp only [List.isEmpty_cons, Bool.false_eq_true, if_false]
      rw [ih _ _ hrest]
      rw [hle, hls]
      simp [List.replicate_succ]

/-- C9: when every attempt fails, `exportSessionWithRetry` returns null rather
than throwing, sleeps exactly `maxRetries` fixed 500ms delays between
attempts, and emits a single warning equal to the message built from the last
error (truncated at 200 characters) and the last extractable stderr excerpt
(truncated at 100 characters).  (The embedding is a total function: the source
catches every exception inside its loop.) -/
theorem exportSessionWithRetry_exhaustion
    (env : Nat → Except String OpenCodeExport) (sessionId : String)
    (maxRetries : Nat) (lastMsg : String)
    (hfail : ∀ i, i < maxRetries + 1 → ∃ m, env i = .error m)
    (hlast : env maxRetries = .error lastMsg) :
    (exportSessionWithRetry env sessionId maxRetries).result = none ∧
    (exportSessionWithRetry env sessionId maxRetries).delays =
      List.replicate maxRetries 500 ∧
    (exportSessionWithRetry env sessionId maxRetries).warnings =
      [buildRetryErrorMsg sessionId (some lastMsg)
        (lastStderrOf env maxRetries)] := by
  have h := retryGo_allFail env sessionId (List.range (maxRetries + 1))
    none none (fun i hi => hfail i (by simpa using hi))
  unfold exportSessionWithRetry
  rw [h]
  have herr : lastErrAcc env (List.range (maxRetries + 1)) none =
      some lastMsg := by
    rw [List.range_succ]
    unfold lastErrAcc
    rw [List.foldl_append]
    simp [lastErrAcc, hlast]
  refine ⟨rfl, by simp, ?_⟩
  rw [herr]
  rfl

/-- All-failing subprocess oracle used by the retry witness. -/
def exFailEnv : Nat → Except String OpenCodeExport :=
  fun _ => .error "boom stderr: oops"

/-- Closed witness for `exportSessionWithRetry_exhaustion`. -/
theorem exportSessionWithRetry_exhaustion_witness :
    (∀ i, i < 2 → ∃ m, exFailEnv i = .error m) ∧
    exFailEnv 1 = .error "boom stderr: oops" ∧
    ((exportSessionWithRetry exFailEnv "s1" 1).result = none ∧
     (exportSessionWithRetry exFailEnv "s1" 1).delays =
       List.replicate 1 500 ∧
     (exportSessionWithRetry exFailEnv "s1" 1).warnings =
       [buildRetryErrorMsg "s1" (some "boom stderr: oops")
         (lastStderrOf exFailEnv 1)]) :=
  ⟨fun _ _ => ⟨"boom stderr: oops", rfl⟩, rfl,
    exportSessionWithRetry_exhaustion exFailEnv "s1" 1 "boom stderr: oops"
      (fun _ _ => ⟨"boom stderr: oops", rfl⟩) rfl⟩

/-! ## Spec-modelled orchestrator theorems -/

theorem abortCheck_processed (st : SpecRunState) :
    (abortCheck st).processed = st.processed := by
  unfold abortCheck; split <;> rfl

theorem abortCheck_exported (st : SpecRunState) :
    (abortCheck st).exported = st.exported := by
  unfold abortCheck; split <;> rfl

theorem abortCheck_skipped (st : SpecRunState) :
    (abortCheck st).skipped = st.skipped := by
  unfold abortCheck; split <;> rfl

theorem abortCheck_errors (st : SpecRunState) :
    (abortCheck st).errors = st.errors := by
  unfold abortCheck; split <;> rfl

theorem abortCheck_invoked (st : SpecRunState) :
    (abortCheck st).invoked = st.invoked := by
  unfold abortCheck; split <;> rfl

theorem abortCheck_cond_self (st : SpecRunState)
    (h10 : 10 ≤ (abortCheck st).processed)
    (hrate : (abortCheck st).processed < 4 * (abortCheck st).errors) :
    (abortCheck st).aborted = true := by
  by_cases hc : 10 ≤ st.processed ∧ st.processed < 4 * st.errors
  · unfold abortCheck; rw [if_pos hc]
  · rw [abortCheck_processed] at h10 hrate
    rw [abortCheck_errors] at hrate
    exact absurd ⟨h10, hrate⟩ hc

/-- Once the abort flag is set, a scheduled task is a pure skip. -/
theorem specStep_aborted (options : SpecExportOptions) (st : SpecRunState)
    (task : SpecSessionTask) (h : st.aborted = true) :
    specStep options st task =
      { st with processed := st.processed + 1, skipped := st.skipped + 1 } := by
  unfold specStep; rw [if_pos h]

/-- Every completed (non-gated) task re-evaluates the abort condition. -/
theorem specStep_shape (options : SpecExportOptions) (st : SpecRunState)
    (task : SpecSessionTask) (hab : st.aborted = false) :
    ∃ x : SpecRunState, specStep options st task = abortCheck x := by
  unfold specStep
  rw [if_neg (by simp [hab])]
  split
  · exact ⟨_, rfl⟩
  · split
    · exact ⟨_, rfl⟩
    · split <;> exact ⟨_, rfl⟩

theorem specStep_cond_aborted (options : SpecExportOptions)
    (st : SpecRunState) (task : SpecSessionTask)
    (h : 10 ≤ (specStep options st task).processed ∧
      (specStep options st task).processed <
        4 * (specStep options st task).errors) :
    (specStep options st task).aborted = true := by
  cases hab : st.aborted with
  | true => rw [specStep_aborted options st task hab]; exact hab
  | false =>
    obtain ⟨x, hx⟩ := specStep_shape options st task hab
    rw [hx] at h ⊢
    exact abortCheck_cond_self x h.1 h.2

theorem specFold_cond_aborted (options : SpecExportOptions) :
    ∀ (tasks : List SpecSessionTask) (st : SpecRunState),
    ((10 ≤ st.processed ∧ st.processed < 4 * st.errors) → st.aborted = true) →
    (10 ≤ (tasks.foldl (specStep options) st).processed ∧
      (tasks.foldl (specStep options) st).processed <
        4 * (tasks.foldl (specStep options) st).errors) →
    (tasks.foldl (specStep options) st).aborted = true := by
  intro tasks
  induction tasks with
  | nil => intro st hinv hcond; exact hinv hcond
  | cons t rest ih =>
    intro st _ hcond
    exact ih (specStep options st t)
      (fun hc => specStep_cond_aborted options st t hc) hcond

/-- Latch: once aborted, every remaining task is counted as one skip and the
exporter is invoked for none of them. -/
theorem specFold_aborted (options : SpecExportOptions) :
    ∀ (tasks : List SpecSessionTask) (st : SpecRunState),
    st.aborted = true →
    tasks.foldl (specStep options) st =
      { st with processed := st.processed + tasks.length
                skipped := st.skipped + tasks.length } := by
  intro tasks
  induction tasks with
  | nil => intro st _; simp
  | cons t rest ih =>
    intro st h
    rw [List.foldl_cons, specStep_aborted options st t h,
      ih { st with processed := st.processed + 1, skipped := st.skipped + 1 } h]
    simp only [List.length_cons]
    congr 1 <;> omega

theorem specRun_decompose (options : SpecExportOptions)
    (tasks : List SpecSessionTask) (i : Nat) :
    specRun options tasks =
      (tasks.drop i).foldl (specStep options) (specStateAfter options tasks i) := by
  unfold specRun specStateAfter
  conv_lhs => rw [← List.take_append_drop i tasks]
  rw [List.foldl_append]

/-- C1: once at least 10 sessions have been processed and the running error
rate exceeds 25% (i.e. `processed < 4 * errors`), the rest of the run is pure
skips: every not-yet-started session task is counted as skipped — not as an
additional error or export — and the exporter is never invoked for any of
them (the invoked list does not grow).  Tasks already folded (in flight or
finished before position `i`) are untouched. -/
theorem specRun_abort_short_circuits (options : SpecExportOptions)
    (tasks : List SpecSessionTask) (i : Nat)
    (h10 : 10 ≤ (specStateAfter options tasks i).processed)
    (hrate : (specStateAfter options tasks i).processed <
      4 * (specStateAfter options tasks i).errors) :
    specRun options tasks =
      { specStateAfter options tasks i with
        processed := (specStateAfter options tasks i).processed +
          (tasks.drop i).length
        skipped := (specStateAfter options tasks i).skipped +
          (tasks.drop i).length } := by
  have hab : (specStateAfter options tasks i).aborted = true := by
    unfold specStateAfter at h10 hrate ⊢
    exact specFold_cond_aborted options (tasks.take i) specInitState
      (fun hc => by simp [specInitState] at hc) ⟨h10, hrate⟩
  rw [specRun_decompose options tasks i,
    specFold_aborted options (tasks.drop i) _ hab]

/-- A session task whose export always fails, for the abort witness. -/
def exFailSpecTask : SpecSessionTask := ⟨"f", 0, none, none⟩

def exSpecOptions : SpecExportOptions := ⟨true, false⟩

/-- Closed witness for `specRun_abort_short_circuits`: 12 scheduled sessions,
every started one fails; after 10 completions the error rate is 100% and the
two remaining sessions are skipped. -/
theorem specRun_abort_short_circuits_witness :
    (10 ≤ (specStateAfter exSpecOptions
        (List.replicate 12 exFailSpecTask) 10).processed ∧
      (specStateAfter exSpecOptions
        (List.replicate 12 exFailSpecTask) 10).processed <
        4 * (specStateAfter exSpecOptions
          (List.replicate 12 exFailSpecTask) 10).errors) ∧
    specRun exSpecOptions (List.replicate 12 exFailSpecTask) =
      { specStateAfter exSpecOptions (List.replicate 12 exFailSpecTask) 10 with
        processed := (specStateAfter exSpecOptions
          (List.replicate 12 exFailSpecTask) 10).processed +
          ((List.replicate 12 exFailSpecTask).drop 10).length
        skipped := (specStateAfter exSpecOptions
          (List.replicate 12 exFailSpecTask) 10).skipped +
          ((List.replicate 12 exFailSpecTask).drop 10).length } :=
  ⟨by decide,
    specRun_abort_short_circuits exSpecOptions
      (List.replicate 12 exFailSpecTask) 10 (by decide) (by decide)⟩

/-- C2: a session whose output file already exists while overwrite is
disabled, or — in incremental mode — whose existing output file is at least
as fresh as the session's last update, is counted as skipped (not exported,
not an error) and the exporter is never invoked for it, wherever it sits in
the schedule. -/
theorem specRun_preskip_conditions (options : SpecExportOptions)
    (pre : List SpecSessionTask) (s : SpecSessionTask)
    (post : List SpecSessionTask)
    (hcond : (s.outFileMtime.isSome = true ∧ options.overwrite = false) ∨
      (options.incremental = true ∧ outFileFresh s = true)) :
    (specStateAfter options (pre ++ s :: post) (pre.length + 1)).skipped =
      (specStateAfter options (pre ++ s :: post) pre.length).skipped + 1 ∧
    (specStateAfter options (pre ++ s :: post) (pre.length + 1)).exported =
      (specStateAfter options (pre ++ s :: post) pre.length).exported ∧
    (specStateAfter options (pre ++ s :: post) (pre.length + 1)).errors =
      (specStateAfter options (pre ++ s :: post) pre.length).errors ∧
    (specStateAfter options (pre ++ s :: post) (pre.length + 1)).invoked =
      (specStateAfter options (pre ++ s :: post) pre.length).invoked := by
  have hpre : (pre ++ s :: post).take pre.length = pre := by
    simp
  have hpre1 : (pre ++ s :: post).take (pre.length + 1) = pre ++ [s] := by
    rw [List.take_append]
    simp
  have hstep : specStateAfter options (pre ++ s :: post) (pre.length + 1) =
      specStep options (specStateAfter options (pre ++ s :: post) pre.length) s := by
    unfold specStateAfter
    rw [hpre, hpre1, List.foldl_append]
    rfl
  rw [hstep]
  set st := specStateAfter options (pre ++ s :: post) pre.length with hst
  cases hab : st.aborted with
  | true =>
    rw [specStep_aborted options st s hab]
    exact ⟨rfl, rfl, rfl, rfl⟩
  | false =>
    by_cases hA : s.outFileMtime.isSome ∧ ¬options.overwrite
    · unfold specStep
      rw [if_neg (by simp [hab]), if_pos hA]
      exact ⟨abortCheck_skipped _, abortCheck_exported _,
        abortCheck_errors _, abortCheck_invoked _⟩
    · have hB : options.incremental = true ∧ outFileFresh s = true := by
        rcases hcond with ⟨h1, h2⟩ | hB
        · exact absurd ⟨by simp [h1], by simp [h2]⟩ hA
        · exact hB
      unfold specStep
      rw [if_neg (by simp [hab]), if_neg hA,
        if_pos (by simp [hB.1, hB.2])]
      exact ⟨abortCheck_skipped _, abortCheck_exported _,
        abortCheck_errors _, abortCheck_invoked _⟩

/-- A session whose output file is newer than its last update. -/
def exFreshTask : SpecSessionTask := ⟨"g", 3, some 5, some 4⟩

def exIncrOptions : SpecExportOptions := ⟨true, true⟩

/-- Closed witness for `specRun_preskip_conditions`: incremental mode with an
output file at least as fresh as the session. -/
theorem specRun_preskip_conditions_witness :
    ((exFreshTask.outFileMtime.isSome = true ∧
        exIncrOptions.overwrite = false) ∨
      (exIncrOptions.incremental = true ∧ outFileFresh exFreshTask = true)) ∧
    ((specStateAfter exIncrOptions ([] ++ exFreshTask :: [exFailSpecTask])
        ([] : List SpecSessionTask).length.succ).skipped =
      (specStateAfter exIncrOptions ([] ++ exFreshTask :: [exFailSpecTask])
        ([] : List SpecSessionTask).length).skipped + 1 ∧
    (specStateAfter exIncrOptions ([] ++ exFreshTask :: [exFailSpecTask])
        ([] : List SpecSessionTask).length.succ).exported =
      (specStateAfter exIncrOptions ([] ++ exFreshTask :: [exFailSpecTask])
        ([] : List SpecSessionTask).length).exported ∧
    (specStateAfter exIncrOptions ([] ++ exFreshTask :: [exFailSpecTask])
        ([] : List SpecSessionTask).length.succ).errors =
      (specStateAfter exIncrOptions ([] ++ exFreshTask :: [exFailSpecTask])
        ([] : List SpecSessionTask).length).errors ∧
    (specStateAfter exIncrOptions ([] ++ exFreshTask :: [exFailSpecTask])
        ([] : List SpecSessionTask).length.succ).invoked =
      (specStateAfter exIncrOptions ([] ++ exFreshTask :: [exFailSpecTask])
        ([] : List SpecSessionTask).length).invoked) :=
  ⟨Or.inr ⟨rfl, rfl⟩,
    specRun_preskip_conditions exIncrOptions [] exFreshTask [exFailSpecTask]
      (Or.inr ⟨rfl, rfl⟩)⟩

end OCE
